import Mathlib

/-!
Shallow embedding of the execution-session orchestrator core:
`app/state_manager.py` (session store, case state machine, views) and
`app/robot_runner.py` (worker streaming loop and line classifier), plus the
`limit` handling of `app/services/session_service.py:get_logs`.

Python strings are modelled as `List Char` where character-level operations
matter and as `String` elsewhere; Python floats are modelled as exact
rationals (`ℚ`), with `round(x, n)` modelled as round-half-to-even on ℚ.
Python `int` is modelled as `ℤ` where arbitrary values can flow in, and as
`ℕ` for the worker-local counters that start at 0 and only increase.
-/

namespace ExecSession

/-- Python `str.isspace` characters relevant to `strip()`. -/
def pyIsSpace (c : Char) : Bool :=
  c = ' ' || c = '\t' || c = '\n' || c = '\r' || c = '\x0b' || c = '\x0c'

/-- Python `str.lstrip()` on a character list. -/
def lstripL (l : List Char) : List Char := l.dropWhile pyIsSpace

/-- Python `str.rstrip()` on a character list. -/
def rstripL (l : List Char) : List Char := (l.reverse.dropWhile pyIsSpace).reverse

/-- Python `str.strip()` on a character list. -/
def stripL (l : List Char) : List Char := rstripL (lstripL l)

/-- Python `str.lower()` (ASCII-adequate for the classifier patterns). -/
def lowerL (l : List Char) : List Char := l.map Char.toLower

/-- Python `str.upper()` on `String` (used by `append_log`'s `level.upper()`). -/
def pyUpper (s : String) : String := String.mk (s.data.map Char.toUpper)

/-- Python `a.startswith(p)` on character lists. -/
def startsWithB : List Char → List Char → Bool
  | _, [] => true
  | [], _ :: _ => false
  | a :: l, b :: p => a = b && startsWithB l p

/-- Python `a.endswith(p)` on character lists. -/
def endsWithB (l p : List Char) : Bool := startsWithB l.reverse p.reverse

/-- Python `p in a` (substring containment) on character lists. -/
def containsSub : List Char → List Char → Bool
  | [], p => p.isEmpty
  | l@(_ :: t), p => startsWithB l p || containsSub t p

/-- Helper for Python whitespace `str.split()`: accumulates the current token. -/
def splitWsAux : List Char → List Char → List (List Char)
  | [], acc => if acc.isEmpty then [] else [acc.reverse]
  | c :: rest, acc =>
      if pyIsSpace c then
        if acc.isEmpty then splitWsAux rest [] else acc.reverse :: splitWsAux rest []
      else splitWsAux rest (c :: acc)

/-- Python `str.split()` with no argument: split on whitespace runs, no empties. -/
def splitWs (l : List Char) : List (List Char) := splitWsAux l []

/-- Round half to even on ℚ, modelling Python's `round` to an integer. -/
def pyRoundHalfEven (q : ℚ) : ℤ :=
  if q - ⌊q⌋ < 1/2 then ⌊q⌋
  else if 1/2 < q - ⌊q⌋ then ⌊q⌋ + 1
  else if 2 ∣ ⌊q⌋ then ⌊q⌋ else ⌊q⌋ + 1

/-- Python `round(x, 2)` on ℚ. -/
def pyRound2 (q : ℚ) : ℚ := (pyRoundHalfEven (q * 100) : ℚ) / 100

/-- Python `round(x, 3)` on ℚ. -/
def pyRound3 (q : ℚ) : ℚ := (pyRoundHalfEven (q * 1000) : ℚ) / 1000

/-- Case status constants of `state_manager.py`. -/
inductive CaseSt where
  | NOTRUN
  | SCHEDULE
  | TESTING
  | PASS
  | FAIL
  | SKIP
deriving DecidableEq

/-- Model of `LogLine` dataclass. -/
structure LogLine where
  timestamp : ℚ
  level : String
  message : String
deriving DecidableEq

/-- Model of `Progress` dataclass (fields only; `percent` is a property, below). -/
structure Progress where
  total_steps : Int := 0
  current_step : Int := 0
deriving DecidableEq

/-- Model of `Progress.percent`: 0.0 when `total_steps <= 0`, otherwise
`round((current_step / max(1, total_steps)) * 100.0, 2)`. -/
def Progress.percent (p : Progress) : ℚ :=
  if p.total_steps ≤ 0 then 0
  else pyRound2 ((p.current_step : ℚ) / ((max 1 p.total_steps : Int) : ℚ) * 100)

/-- Model of `Stats` dataclass. -/
structure Stats where
  duration_seconds : ℚ := 0
  success : Bool := false
  passed : Nat := 0
  failed : Nat := 0
  skipped : Nat := 0
  artifacts : List (String × String) := []
deriving DecidableEq

/-- Model of `SessionState` dataclass. `case_status` is the Python dict modelled as an
insertion-ordered association list with unique keys. -/
structure SessionState where
  session_id : String
  status : String := "PENDING"
  created_at : ℚ := 0
  updated_at : ℚ := 0
  started_at : Option ℚ := none
  finished_at : Option ℚ := none
  progress : Progress := {}
  stats : Stats := {}
  logs : List LogLine := []
  ui_lock : Bool := false
  case_status : List (String × CaseSt) := []
  current_case_name : Option String := none
  current_case_doc : Option String := none
deriving DecidableEq

/-- Python dict key membership `k in m` for the `case_status` dict. -/
def dictMem (m : List (String × CaseSt)) (k : String) : Bool :=
  m.any (fun p => p.1 = k)

/-- Python dict lookup `m[k]` (as an option) for the `case_status` dict. -/
def dictGet (m : List (String × CaseSt)) (k : String) : Option CaseSt :=
  (m.find? (fun p => p.1 = k)).map (fun p => p.2)

/-- Python dict assignment `m[k] = v`: update in place if present, else append. -/
def dictSet (m : List (String × CaseSt)) (k : String) (v : CaseSt) :
    List (String × CaseSt) :=
  if dictMem m k then m.map (fun p => if p.1 = k then (k, v) else p)
  else m ++ [(k, v)]

/-- Python dict assignment for the string-valued `artifacts` dict. -/
def strDictSet (m : List (String × String)) (k v : String) :
    List (String × String) :=
  if m.any (fun p => p.1 = k) then m.map (fun p => if p.1 = k then (k, v) else p)
  else m ++ [(k, v)]

def MAX_LOG_LINES : Nat := 1000

/-- The last `n` entries of a list (Python `l[-n:]` for `n ≥ 1`, and the
result of the cap-trimming in `append_log`). -/
def lastN (n : Nat) (l : List α) : List α := l.drop (l.length - n)

/-- Model of `StateManager.append_log` on the session's state (the session is assumed
present; on an absent id the Python method is a no-op). -/
def appendLog (s : SessionState) (now : ℚ) (level message : String) : SessionState :=
  let logs1 := s.logs ++ [⟨now, pyUpper level, message⟩]
  let logs2 := if logs1.length > MAX_LOG_LINES then lastN MAX_LOG_LINES logs1 else logs1
  { s with logs := logs2, updated_at := now }

/-- Model of `StateManager.set_status`. -/
def setStatus (s : SessionState) (now : ℚ) (status : String) : SessionState :=
  { s with status := status, updated_at := now }

/-- Model of `StateManager.set_artifacts` (`stats.artifacts.update(artifacts or {})`). -/
def setArtifacts (s : SessionState) (now : ℚ) (a : List (String × String)) :
    SessionState :=
  { s with
    stats := { s.stats with
               artifacts := a.foldl (fun m p => strDictSet m p.1 p.2) s.stats.artifacts },
    updated_at := now }

/-- Model of `StateManager.set_progress`: both fields clamped to `max 0 _`. -/
def setProgress (s : SessionState) (now : ℚ) (current_step total_steps : Int) :
    SessionState :=
  { s with
    progress := { current_step := max 0 current_step,
                  total_steps := max 0 total_steps },
    updated_at := now }

/-- Model of `StateManager.set_ui_lock`. -/
def setUiLock (s : SessionState) (now : ℚ) (locked : Bool) : SessionState :=
  { s with ui_lock := locked, updated_at := now }

/-- Model of `StateManager.initialize_cases`. -/
def initializeCases (s : SessionState) (now : ℚ) (cases : List String) :
    SessionState :=
  let m := cases.foldl (fun m c => if c ≠ "" then dictSet m c CaseSt.SCHEDULE else m) []
  let s1 := { s with case_status := m, updated_at := now }
  if cases ≠ [] then
    appendLog s1 now "INFO"
      ("Initialized " ++ toString cases.length ++ " test cases as SCHEDULE.")
  else s1

/-- Model of `StateManager.mark_started`. -/
def markStarted (s : SessionState) (now : ℚ) : SessionState :=
  appendLog { s with status := "RUNNING", started_at := some now, updated_at := now }
    now "INFO" "Execution started."

/-- The `totals` dict accumulated by the worker. -/
structure Totals where
  passed : Nat := 0
  failed : Nat := 0
  skipped : Nat := 0
deriving DecidableEq

/-- Python truthiness of an `Optional[float]` (`None` and `0.0` are falsy). -/
def pyTruthyRat : Option ℚ → Bool
  | none => false
  | some t => t ≠ 0

/-- Python bool formatting, for the summary log message. -/
def pyStrBool : Bool → String
  | true => "True"
  | false => "False"

/-- Model of `StateManager.mark_finished`. -/
def markFinished (s : SessionState) (now : ℚ) (success : Bool) (totals : Totals)
    (started_at : Option ℚ) : SessionState :=
  let duration : ℚ :=
    if pyTruthyRat started_at then max 0 (now - started_at.getD 0) else 0
  let s1 := { s with
    status := if success then "COMPLETED" else "FAILED",
    finished_at := some now,
    updated_at := now,
    stats := { s.stats with
      duration_seconds := pyRound3 duration,
      success := success,
      passed := totals.passed,
      failed := totals.failed,
      skipped := totals.skipped },
    ui_lock := false }
  appendLog s1 now "INFO"
    ("Execution finished. Success=" ++ pyStrBool success ++ " (Passed=" ++
      toString totals.passed ++ ", Failed=" ++ toString totals.failed ++
      ", Skipped=" ++ toString totals.skipped ++ ").")

/-- Python truthiness of an `Optional[str]` (`None` and `""` are falsy). -/
def pyTruthyStr : Option String → Bool
  | none => false
  | some t => t ≠ ""

/-- Model of `StateManager.set_current_case`. -/
def setCurrentCase (s : SessionState) (now : ℚ) (name doc : Option String) :
    SessionState :=
  let m0 :=
    if pyTruthyStr s.current_case_name ∧ s.current_case_name ≠ name then
      let prev := s.current_case_name.getD ""
      if dictMem s.case_status prev ∧ dictGet s.case_status prev = some CaseSt.TESTING
      then dictSet s.case_status prev CaseSt.SCHEDULE
      else s.case_status
    else s.case_status
  let m2 :=
    if pyTruthyStr name then
      let n := name.getD ""
      let m1 := if ¬ dictMem m0 n then dictSet m0 n CaseSt.SCHEDULE else m0
      dictSet m1 n CaseSt.TESTING
    else m0
  { s with
    case_status := m2,
    current_case_name := name,
    current_case_doc := doc,
    updated_at := now }

/-- Model of `StateManager.set_case_result`. -/
def setCaseResult (s : SessionState) (now : ℚ) (name : String) (outcome : CaseSt) :
    SessionState :=
  if outcome = CaseSt.PASS ∨ outcome = CaseSt.FAIL ∨ outcome = CaseSt.SKIP then
    let m1 := if ¬ dictMem s.case_status name then dictSet s.case_status name CaseSt.NOTRUN
              else s.case_status
    let m2 := dictSet m1 name outcome
    let cleared := s.current_case_name = some name
    { s with
      case_status := m2,
      current_case_name := if cleared then none else s.current_case_name,
      current_case_doc := if cleared then none else s.current_case_doc,
      updated_at := now }
  else s

/-- The state produced by `StateManager.create_session` (fresh record plus the
"Session created." log entry). -/
def initSession (sid : String) (now : ℚ) : SessionState :=
  appendLog { session_id := sid, status := "PENDING", created_at := now,
              updated_at := now }
    now "INFO" "Session created."

/-- Python `logs[-limit:]` for the logs views, where `limit ≥ 0`: the slice
index is the integer `-limit`, and `-0 == 0` selects the whole list. -/
def pyTailSlice (l : List LogLine) (limit : Int) : List LogLine :=
  if limit = 0 then l else l.drop (l.length - limit.toNat)

/-- Model of `StateManager.get_logs_view` on a present session: optional level filter
(levels are stored upper-cased), then optional `[-limit:]` trim. -/
def getLogsView (s : SessionState) (level : Option String) (limit : Option Int) :
    List LogLine :=
  let logs1 :=
    match level with
    | some lv => if lv ≠ "" then s.logs.filter (fun l => l.level = pyUpper lv) else s.logs
    | none => s.logs
  match limit with
  | some k => if 0 ≤ k then pyTailSlice logs1 k else logs1
  | none => logs1

/-- Start-line detection of `_run_worker`: `"starting test" in lowered` or
`line_str.startswith("START /")` or `line_str.startswith("Start test")`. -/
def isStartLine (l : List Char) : Bool :=
  containsSub (lowerL l) "starting test".toList ||
  startsWithB l "START /".toList ||
  startsWithB l "Start test".toList

/-- Name extraction for a Start line: text after the first colon, stripped,
empty mapped to `None`; otherwise the last whitespace-delimited token. -/
def extractName (l : List Char) : Option String :=
  if containsSub l [':'] then
    let after := (l.dropWhile (fun c => c ≠ ':')).drop 1
    let n := stripL after
    if n.isEmpty then none else some (String.mk n)
  else
    (splitWs l).getLast?.map (fun t => String.mk t)

/-- Pass pattern over the lowered line:
`" | pass" in lowered or lowered.endswith("pass") or lowered.startswith("pass")
or " pass " in lowered`. -/
def passPat (low : List Char) : Bool :=
  containsSub low " | pass".toList || endsWithB low "pass".toList ||
  startsWithB low "pass".toList || containsSub low " pass ".toList

/-- Fail pattern over the lowered line (same shape as `passPat`). -/
def failPat (low : List Char) : Bool :=
  containsSub low " | fail".toList || endsWithB low "fail".toList ||
  startsWithB low "fail".toList || containsSub low " fail ".toList

/-- Skip pattern over the lowered line (same shape as `passPat`). -/
def skipPat (low : List Char) : Bool :=
  containsSub low " | skip".toList || endsWithB low "skip".toList ||
  startsWithB low "skip".toList || containsSub low " skip ".toList

/-- The `result_detected` elif chain: pass, then fail, then skip. -/
def resultOf (low : List Char) : Option CaseSt :=
  if passPat low then some CaseSt.PASS
  else if failPat low then some CaseSt.FAIL
  else if skipPat low then some CaseSt.SKIP
  else none

/-- One classification event per non-blank line (§4.3's tagged variant): the
Start check fires first and `continue`s, so a Start line is never evaluated
as a Result; Results follow the pass → fail → skip elif chain. -/
inductive LineEvent where
  | start (name : Option String)
  | result (outcome : CaseSt)
  | plain
deriving DecidableEq

/-- Classification of a (stripped, non-blank) line, mirroring the branch
structure of the streaming loop. -/
def classify (l : List Char) : LineEvent :=
  if isStartLine l then .start (extractName l)
  else
    match resultOf (lowerL l) with
    | some o => .result o
    | none => .plain

/-- The worker's loop-local variables in `_run_worker`. -/
structure WLocal where
  totals : Totals := {}
  total_steps : Nat := 0
  current_step : Nat := 0
  current_case_name : Option String := none
deriving DecidableEq

/-- Model of `totals[...] += 1` for the detected outcome. -/
def bumpTotals (t : Totals) : CaseSt → Totals
  | CaseSt.PASS => { t with passed := t.passed + 1 }
  | CaseSt.FAIL => { t with failed := t.failed + 1 }
  | CaseSt.SKIP => { t with skipped := t.skipped + 1 }
  | _ => t

/-- One store mutation issued by the runner, in issue order. -/
inductive StoreOp where
  | opSetUiLock (locked : Bool)
  | opMarkStarted
  | opSetArtifacts (a : List (String × String))
  | opAppendLog (level message : String)
  | opSetStatus (status : String)
  | opSetProgress (current_step total_steps : Int)
  | opSetCurrentCase (name doc : Option String)
  | opSetCaseResult (name : String) (outcome : CaseSt)
  | opMarkFinished (success : Bool) (totals : Totals) (started_at : Option ℚ)
deriving DecidableEq

/-- Apply one store operation to a (present) session's state. -/
def applyOp (now : ℚ) (s : SessionState) : StoreOp → SessionState
  | .opSetUiLock b => setUiLock s now b
  | .opMarkStarted => markStarted s now
  | .opSetArtifacts a => setArtifacts s now a
  | .opAppendLog lv m => appendLog s now lv m
  | .opSetStatus st => setStatus s now st
  | .opSetProgress cs ts => setProgress s now cs ts
  | .opSetCurrentCase n d => setCurrentCase s now n d
  | .opSetCaseResult n o => setCaseResult s now n o
  | .opMarkFinished suc t t0 => markFinished s now suc t t0

/-- Apply a sequence of store operations in order. -/
def applyOps (now : ℚ) (s : SessionState) (ops : List StoreOp) : SessionState :=
  ops.foldl (applyOp now) s

/-- One iteration of the worker streaming loop on a raw line: the updated
loop-locals and the store operations issued for that line, in order. A
whitespace-only line is skipped entirely (`continue` before logging). -/
def lineOps (w : WLocal) (raw : List Char) : WLocal × List StoreOp :=
  let ls := stripL raw
  if ls.isEmpty then (w, [])
  else
    let logOp := StoreOp.opAppendLog "INFO" (String.mk ls)
    match classify ls with
    | .start name =>
        let ts := w.total_steps + 1
        ({ w with total_steps := ts, current_case_name := name },
         [logOp,
          .opSetCurrentCase name none,
          .opSetProgress (w.current_step : Int) ((max ts 1 : Nat) : Int)])
    | .result o =>
        let w1 := { w with totals := bumpTotals w.totals o }
        if pyTruthyStr w.current_case_name then
          let n := w.current_case_name.getD ""
          let cs := min (w.current_step + 1) (max w.total_steps (w.current_step + 1))
          let tsArg := max w.total_steps (if w.total_steps = 0 then cs else w.total_steps)
          ({ w1 with current_step := cs, current_case_name := none },
           [logOp,
            .opSetCaseResult n o,
            .opSetProgress (cs : Int) (tsArg : Int)])
        else
          let tsArg := max w.total_steps
            (if w.total_steps = 0 then w.current_step else w.total_steps)
          (w1, [logOp, .opSetProgress (w.current_step : Int) (tsArg : Int)])
    | .plain =>
        let tsArg := max w.total_steps
          (if w.total_steps = 0 then w.current_step else w.total_steps)
        (w, [logOp, .opSetProgress (w.current_step : Int) (tsArg : Int)])

/-- The whole streaming loop: final loop-locals and all issued operations. -/
def runLinesAcc : WLocal → List (List Char) → WLocal × List StoreOp
  | w, [] => (w, [])
  | w, raw :: rest =>
      let p := lineOps w raw
      let q := runLinesAcc p.1 rest
      (q.1, p.2 ++ q.2)

/-- All store operations issued while streaming `lines` from fresh locals. -/
def streamOps (lines : List (List Char)) : List StoreOp :=
  (runLinesAcc {} lines).2

/-- Outcome of `subprocess.Popen` as seen by `_run_worker`. -/
inductive SpawnResult where
  | failureNotFound
  | failureOther (msg : String)
  | ok (lines : List (List Char)) (returncode : Int)
deriving DecidableEq

/-- Whether the spawn attempt failed. -/
def isSpawnFailure : SpawnResult → Bool
  | .ok _ _ => false
  | _ => true

/-- The store operations issued by `_run_worker` after the spawn attempt,
with `started_at` the timestamp taken at worker entry. -/
def workerOps (sp : SpawnResult) (started_at : ℚ) : List StoreOp :=
  match sp with
  | .failureNotFound =>
      [.opAppendLog "ERROR" "Robot not found. Ensure Robot Framework is installed.",
       .opMarkFinished false {} (some started_at)]
  | .failureOther msg =>
      [.opAppendLog "ERROR" ("Failed to start Robot: " ++ msg),
       .opMarkFinished false {} (some started_at)]
  | .ok lines code =>
      let r := runLinesAcc {} lines
      [.opSetStatus "RUNNING", .opAppendLog "INFO" "Robot process started."] ++
      r.2 ++
      [.opAppendLog "INFO" ("Robot process finished with code " ++ toString code ++ "."),
       .opMarkFinished (code == 0) r.1.totals (some started_at)]

/-- The store operations issued by `RobotRunner.start` (UI lock, mark started,
artifact paths, two informational log lines) followed by the worker's
operations; `art`, `cmdMsg`, `outMsg` abstract the computed artifact map and
the two log messages, which depend on filesystem paths. -/
def startOps (art : List (String × String)) (cmdMsg outMsg : String)
    (sp : SpawnResult) (started_at : ℚ) : List StoreOp :=
  [.opSetUiLock true, .opMarkStarted, .opSetArtifacts art,
   .opAppendLog "INFO" cmdMsg, .opAppendLog "INFO" outMsg] ++
  workerOps sp started_at

/-- A case-machine operation of the Store (§4.3). -/
inductive CaseOp where
  | cur (name doc : Option String)
  | res (name : String) (outcome : CaseSt)
  | initcases (cases : List String)
deriving DecidableEq

/-- Apply one case-machine operation. -/
def applyCaseOp (now : ℚ) (s : SessionState) : CaseOp → SessionState
  | .cur n d => setCurrentCase s now n d
  | .res n o => setCaseResult s now n o
  | .initcases cs => initializeCases s now cs

/-- Apply a sequence of case-machine operations. -/
def applyCaseOps (now : ℚ) (s : SessionState) (ops : List CaseOp) : SessionState :=
  ops.foldl (applyCaseOp now) s

/-- Number of cases currently holding TESTING. -/
def countTesting (m : List (String × CaseSt)) : Nat :=
  (m.filter (fun p => p.2 = CaseSt.TESTING)).length

/-- Number of log entries at ERROR level. -/
def errCount (logs : List LogLine) : Nat :=
  (logs.filter (fun l => l.level = "ERROR")).length

/-- Case-machine coherence: every TESTING case is the tracked current case,
and the tracked name of a TESTING case is non-empty (Python-truthy). -/
def CaseInv (s : SessionState) : Prop :=
  ∀ p ∈ s.case_status, p.2 = CaseSt.TESTING →
    s.current_case_name = some p.1 ∧ p.1 ≠ ""

/-- The `case_status` dict has unique keys (as any Python dict does). -/
def KeysInv (s : SessionState) : Prop :=
  (s.case_status.map (fun p => p.1)).Nodup

/-- Worker-locals invariant: the completed-step counter never outruns the
started-step counter (with one start pending when a case is being tracked). -/
def WInv (w : WLocal) : Prop :=
  (w.current_case_name = none → w.current_step ≤ w.total_steps) ∧
  (w.current_case_name ≠ none → w.current_step + 1 ≤ w.total_steps)

/-- Model of `InMemorySessionService.get_logs` on a present session: level filter
compares `l.level.upper() == level.upper()`, then the same `[-limit:]` trim. -/
def svcGetLogs (logs : List LogLine) (level : Option String) (limit : Option Int) :
    List LogLine :=
  let logs1 :=
    match level with
    | some lv => if lv ≠ "" then logs.filter (fun l => pyUpper l.level = pyUpper lv)
                 else logs
    | none => logs
  match limit with
  | some k => if 0 ≤ k then pyTailSlice logs1 k else logs1
  | none => logs1

/-- A sequence of `append_log` calls (timestamp, level, message). -/
def applyAppends (entries : List (ℚ × String × String)) (s : SessionState) :
    SessionState :=
  entries.foldl (fun s e => appendLog s e.1 e.2.1 e.2.2) s

/-- The session is running with the UI locked. -/
def RunLocked (s : SessionState) : Prop :=
  s.status = "RUNNING" ∧ s.ui_lock = true

/-- Store operations that touch neither `status` nor `ui_lock`. -/
def isPassive : StoreOp → Bool
  | .opSetArtifacts _ => true
  | .opAppendLog _ _ => true
  | .opSetProgress _ _ => true
  | .opSetCurrentCase _ _ => true
  | .opSetCaseResult _ _ => true
  | _ => false

/-- An operation that keeps a running-and-locked session running and locked. -/
def KeepsQ (op : StoreOp) : Prop :=
  ∀ now s, RunLocked s → RunLocked (applyOp now s op)

/-- The worker's operations strictly between the spawn attempt and the final
`mark_finished` call. -/
def workerMid (sp : SpawnResult) : List StoreOp :=
  match sp with
  | .failureNotFound =>
      [.opAppendLog "ERROR" "Robot not found. Ensure Robot Framework is installed."]
  | .failureOther msg =>
      [.opAppendLog "ERROR" ("Failed to start Robot: " ++ msg)]
  | .ok lines code =>
      [.opSetStatus "RUNNING", .opAppendLog "INFO" "Robot process started."] ++
      (runLinesAcc {} lines).2 ++
      [.opAppendLog "INFO" ("Robot process finished with code " ++ toString code ++ ".")]

/-- The worker's final `mark_finished` operation. -/
def finOp (sp : SpawnResult) (started_at : ℚ) : StoreOp :=
  match sp with
  | .failureNotFound => .opMarkFinished false {} (some started_at)
  | .failureOther _ => .opMarkFinished false {} (some started_at)
  | .ok lines code =>
      .opMarkFinished (code == 0) (runLinesAcc {} lines).1.totals (some started_at)

/-- A sample session with one case being tested, used to exercise the
case-machine lemmas on concrete input. -/
def c8WitSession : SessionState :=
  { session_id := "x",
    case_status := [("A", CaseSt.TESTING)],
    current_case_name := some "A" }

/-- The demotion step at the top of `set_current_case` (the `case_status`
value after the optional TESTING → SCHEDULE demotion of the previous current
case, before the new case is marked). -/
def demoteStep (s : SessionState) (name : Option String) :
    List (String × CaseSt) :=
  if pyTruthyStr s.current_case_name ∧ s.current_case_name ≠ name then
    (if dictMem s.case_status (s.current_case_name.getD "") ∧
        dictGet s.case_status (s.current_case_name.getD "") = some CaseSt.TESTING
     then dictSet s.case_status (s.current_case_name.getD "") CaseSt.SCHEDULE
     else s.case_status)
  else s.case_status

theorem le_pyRoundHalfEven {q : ℚ} {a : ℤ} (h : (a : ℚ) ≤ q) :
    a ≤ pyRoundHalfEven q := by
  have hf : a ≤ ⌊q⌋ := Int.le_floor.mpr h
  unfold pyRoundHalfEven
  split_ifs <;> omega

theorem pyRoundHalfEven_le {q : ℚ} {b : ℤ} (h : q ≤ (b : ℚ)) :
    pyRoundHalfEven q ≤ b := by
  have hfb : ⌊q⌋ ≤ b := by
    have h1 : (⌊q⌋ : ℚ) ≤ (b : ℚ) := le_trans (Int.floor_le q) h
    exact_mod_cast h1
  have hq : (⌊q⌋ : ℚ) ≤ q := Int.floor_le q
  unfold pyRoundHalfEven
  split_ifs with h1 h2 h3
  · exact hfb
  · by_contra hc
    push_neg at hc
    have hb : (b : ℚ) ≤ (⌊q⌋ : ℚ) := by exact_mod_cast Int.lt_add_one_iff.mp hc
    linarith
  · exact hfb
  · by_contra hc
    push_neg at hc
    have hb : (b : ℚ) ≤ (⌊q⌋ : ℚ) := by exact_mod_cast Int.lt_add_one_iff.mp hc
    have h1' := not_lt.mp h1
    linarith

theorem pyRound2_bounds {x : ℚ} (h0 : 0 ≤ x) (h1 : x ≤ 100) :
    0 ≤ pyRound2 x ∧ pyRound2 x ≤ 100 := by
  have hlb : (0 : ℤ) ≤ pyRoundHalfEven (x * 100) := by
    apply le_pyRoundHalfEven
    push_cast
    nlinarith
  have hub : pyRoundHalfEven (x * 100) ≤ (10000 : ℤ) := by
    apply pyRoundHalfEven_le
    push_cast
    nlinarith
  have hlb' : (0 : ℚ) ≤ (pyRoundHalfEven (x * 100) : ℚ) := by exact_mod_cast hlb
  have hub' : ((pyRoundHalfEven (x * 100) : ℤ) : ℚ) ≤ 10000 := by exact_mod_cast hub
  unfold pyRound2
  constructor
  · positivity
  · rw [div_le_iff₀ (by norm_num)]
    linarith

theorem lineOps_ok (w : WLocal) (raw : List Char) (hw : WInv w) :
    WInv (lineOps w raw).1 ∧
    (∀ cs ts : Int, StoreOp.opSetProgress cs ts ∈ (lineOps w raw).2 →
       0 ≤ cs ∧ cs ≤ ts) := by
  have hcs : w.current_step ≤ w.total_steps := by
    rcases hw with ⟨h1, h2⟩
    cases hn : w.current_case_name with
    | none => exact h1 hn
    | some n =>
        have := h2 (by simp [hn])
        omega
  unfold lineOps
  by_cases hb : (stripL raw).isEmpty
  · simp only [hb, if_true]
    exact ⟨hw, by simp⟩
  · simp only [hb, Bool.false_eq_true, if_false]
    split
    · -- Start branch
      constructor
      · constructor
        · intro _
          simp
          omega
        · intro _
          simp
          omega
      · intro cs ts hm
        simp only [List.mem_cons, List.not_mem_nil, or_false] at hm
        rcases hm with h | h | h
        · exact absurd h (by simp)
        · exact absurd h (by simp)
        · injection h with h1 h2
          subst h1
          subst h2
          constructor
          · positivity
          · push_cast
            omega
    · -- Result branch
      by_cases ht : pyTruthyStr w.current_case_name
      · simp only [ht, if_true]
        have hsome : w.current_case_name ≠ none := by
          intro hn
          rw [hn] at ht
          simp [pyTruthyStr] at ht
        have hstep : w.current_step + 1 ≤ w.total_steps := hw.2 hsome
        have hts0 : w.total_steps ≠ 0 := by omega
        constructor
        · constructor
          · intro _
            simp
            omega
          · intro hne
            simp at hne
        · intro cs ts hm
          simp only [List.mem_cons, List.not_mem_nil, or_false] at hm
          rcases hm with h | h | h
          · exact absurd h (by simp)
          · exact absurd h (by simp)
          · injection h with h1 h2
            subst h1
            subst h2
            rw [if_neg hts0]
            constructor
            · positivity
            · push_cast
              omega
      · simp only [ht, Bool.false_eq_true, if_false]
        constructor
        · exact ⟨fun h => hw.1 h, fun h => hw.2 h⟩
        · intro cs ts hm
          simp only [List.mem_cons, List.not_mem_nil, or_false] at hm
          rcases hm with h | h
          · exact absurd h (by simp)
          · injection h with h1 h2
            subst h1
            subst h2
            by_cases hts : w.total_steps = 0
            · rw [if_pos hts]
              constructor
              · positivity
              · push_cast
                omega
            · rw [if_neg hts]
              constructor
              · positivity
              · push_cast
                omega
    · -- Plain branch
      constructor
      · exact hw
      · intro cs ts hm
        simp only [List.mem_cons, List.not_mem_nil, or_false] at hm
        rcases hm with h | h
        · exact absurd h (by simp)
        · injection h with h1 h2
          subst h1
          subst h2
          by_cases hts : w.total_steps = 0
          · rw [if_pos hts]
            constructor
            · positivity
            · push_cast
              omega
          · rw [if_neg hts]
            constructor
            · positivity
            · push_cast
              omega

theorem runLinesAcc_ok (lines : List (List Char)) :
    ∀ w : WLocal, WInv w →
      WInv (runLinesAcc w lines).1 ∧
      (∀ cs ts : Int, StoreOp.opSetProgress cs ts ∈ (runLinesAcc w lines).2 →
         0 ≤ cs ∧ cs ≤ ts) := by
  induction lines with
  | nil =>
      intro w hw
      exact ⟨hw, by simp [runLinesAcc]⟩
  | cons raw rest ih =>
      intro w hw
      have h1 := lineOps_ok w raw hw
      have h2 := ih _ h1.1
      constructor
      · simpa [runLinesAcc] using h2.1
      · intro cs ts hm
        simp only [runLinesAcc, List.mem_append] at hm
        rcases hm with h | h
        · exact h1.2 cs ts h
        · exact h2.2 cs ts h

/-- C4: the progress percent is 0 when `total_steps ≤ 0`, otherwise it is
`round(current_step/total_steps*100, 2)` and lies within [0,100] whenever
`0 ≤ current_step ≤ total_steps`; moreover every progress update issued by
the worker streaming loop satisfies `0 ≤ current_step ≤ total_steps`, so the
stored (clamped) progress always yields a percent in [0,100]. -/
theorem claim_c4 :
    (∀ p : Progress,
       (p.total_steps ≤ 0 → p.percent = 0) ∧
       (0 < p.total_steps →
          p.percent = pyRound2 ((p.current_step : ℚ) / (p.total_steps : ℚ) * 100)) ∧
       (0 ≤ p.current_step → p.current_step ≤ p.total_steps →
          0 ≤ p.percent ∧ p.percent ≤ 100)) ∧
    (∀ (lines : List (List Char)) (cs ts : Int),
       StoreOp.opSetProgress cs ts ∈ streamOps lines → 0 ≤ cs ∧ cs ≤ ts) := by
  have hformula : ∀ p : Progress, 0 < p.total_steps →
      p.percent = pyRound2 ((p.current_step : ℚ) / (p.total_steps : ℚ) * 100) := by
    intro p h
    rw [Progress.percent, if_neg (not_le.mpr h)]
    rw [max_eq_right (by omega : (1 : ℤ) ≤ p.total_steps)]
  constructor
  · intro p
    refine ⟨?_, hformula p, ?_⟩
    · intro h
      rw [Progress.percent, if_pos h]
    · intro h0 h1
      by_cases hts : p.total_steps ≤ 0
      · rw [Progress.percent, if_pos hts]
        norm_num
      · push_neg at hts
        rw [hformula p hts]
        have hpos : (0 : ℚ) < (p.total_steps : ℚ) := by exact_mod_cast hts
        apply pyRound2_bounds
        · have : (0 : ℚ) ≤ (p.current_step : ℚ) := by exact_mod_cast h0
          positivity
        · have hle : (p.current_step : ℚ) / (p.total_steps : ℚ) ≤ 1 := by
            rw [div_le_one hpos]
            exact_mod_cast h1
          nlinarith
  · intro lines cs ts hm
    exact (runLinesAcc_ok lines {}
      ⟨fun _ => Nat.le_refl 0, fun h => absurd rfl h⟩).2 cs ts hm

theorem claim_c4_witness :
    (Progress.percent { total_steps := 0, current_step := 7 } = 0) ∧
    (Progress.percent { total_steps := 4, current_step := 1 } =
       pyRound2 ((1 : ℚ) / (4 : ℚ) * 100)) ∧
    (0 ≤ Progress.percent { total_steps := 4, current_step := 1 } ∧
       Progress.percent { total_steps := 4, current_step := 1 } ≤ 100) ∧
    (0 ≤ (0 : Int) ∧ (0 : Int) ≤ 1) :=
  ⟨(claim_c4.1 _).1 (by decide),
   (claim_c4.1 { total_steps := 4, current_step := 1 }).2.1 (by decide),
   (claim_c4.1 { total_steps := 4, current_step := 1 }).2.2 (by decide) (by decide),
   claim_c4.2 ["Starting test: A".toList] 0 1 (by decide)⟩

theorem appendLog_logs_eq (s : SessionState) (now : ℚ) (lv msg : String) :
    (appendLog s now lv msg).logs =
      lastN MAX_LOG_LINES (s.logs ++ [⟨now, pyUpper lv, msg⟩]) := by
  simp only [appendLog]
  split
  · rfl
  · next h =>
    have hle : s.logs.length + 1 ≤ MAX_LOG_LINES := by
      have := Nat.le_of_not_lt h
      simpa using this
    have h0 : s.logs.length + 1 - MAX_LOG_LINES = 0 := by omega
    simp [lastN, h0]

theorem appendLog_length_le {s : SessionState} (now : ℚ) (lv msg : String)
    (_h : s.logs.length ≤ MAX_LOG_LINES) :
    (appendLog s now lv msg).logs.length ≤ MAX_LOG_LINES := by
  rw [appendLog_logs_eq]
  simp [lastN]
  omega

/-- C3: a session's log never exceeds 1000 entries across any sequence of
`append_log` calls, and each append retains exactly the most recent 1000
entries of the extended log, in order (FIFO eviction from the head). -/
theorem claim_c3 :
    (∀ (s : SessionState) (now : ℚ) (lv msg : String),
       (appendLog s now lv msg).logs =
         lastN MAX_LOG_LINES (s.logs ++ [⟨now, pyUpper lv, msg⟩])) ∧
    (∀ (entries : List (ℚ × String × String)) (s : SessionState),
       s.logs.length ≤ MAX_LOG_LINES →
         (applyAppends entries s).logs.length ≤ MAX_LOG_LINES) := by
  constructor
  · exact appendLog_logs_eq
  · intro entries
    induction entries with
    | nil => intro s h; exact h
    | cons e rest ih =>
        intro s h
        have : applyAppends (e :: rest) s = applyAppends rest (appendLog s e.1 e.2.1 e.2.2) := rfl
        rw [this]
        exact ih _ (appendLog_length_le e.1 e.2.1 e.2.2 h)

theorem claim_c3_witness :
    ((initSession "s" 0).logs.length ≤ MAX_LOG_LINES) ∧
    (applyAppends [(1, "INFO", "x"), (2, "ERROR", "y")] (initSession "s" 0)).logs.length ≤
      MAX_LOG_LINES :=
  ⟨by decide, claim_c3.2 [(1, "INFO", "x"), (2, "ERROR", "y")] (initSession "s" 0) (by decide)⟩

/-- C10: with `limit = 0`, both logs views return the entire (level-filtered)
log list, because the slice `logs[-0:]` keeps all entries; in particular the
returned length can exceed the limit 0. -/
theorem claim_c10 :
    (∀ (s : SessionState) (level : Option String),
       getLogsView s level (some 0) = getLogsView s level none) ∧
    (∀ (logs : List LogLine) (level : Option String),
       svcGetLogs logs level (some 0) = svcGetLogs logs level none) ∧
    (getLogsView { session_id := "s", logs := [⟨0, "INFO", "a"⟩, ⟨1, "INFO", "b"⟩] }
        none (some 0)).length = 2 := by
  refine ⟨?_, ?_, by decide⟩
  · intro s level
    simp [getLogsView, pyTailSlice]
  · intro logs level
    simp [svcGetLogs, pyTailSlice]

/-- C6: classification priority is fixed: a line matching a Start pattern is
classified as Start and never as a Result, and a non-Start line resolves as
PASS before FAIL before SKIP, so multi-pattern lines take the
highest-priority match. -/
theorem claim_c6 : ∀ l : List Char,
    (isStartLine l = true → classify l = .start (extractName l)) ∧
    (∀ o, classify l = .result o → isStartLine l = false) ∧
    (isStartLine l = false → passPat (lowerL l) = true →
       classify l = .result CaseSt.PASS) ∧
    (isStartLine l = false → passPat (lowerL l) = false → failPat (lowerL l) = true →
       classify l = .result CaseSt.FAIL) ∧
    (isStartLine l = false → passPat (lowerL l) = false → failPat (lowerL l) = false →
       skipPat (lowerL l) = true → classify l = .result CaseSt.SKIP) := by
  intro l
  refine ⟨?_, ?_, ?_, ?_, ?_⟩
  · intro h; simp [classify, h]
  · intro o h
    by_cases hs : isStartLine l
    · rw [classify, if_pos hs] at h
      exact absurd h (by simp)
    · simpa using hs
  · intro hs hp; simp [classify, hs, resultOf, hp]
  · intro hs hp hf; simp [classify, hs, resultOf, hp, hf]
  · intro hs hp hf hk; simp [classify, hs, resultOf, hp, hf, hk]

theorem claim_c6_witness :
    classify "Starting test: A".toList = .start (extractName "Starting test: A".toList) ∧
    classify "a pass fail".toList = .result CaseSt.PASS ∧
    classify "it will fail".toList = .result CaseSt.FAIL ∧
    classify "x | skip".toList = .result CaseSt.SKIP :=
  ⟨(claim_c6 _).1 (by decide),
   (claim_c6 _).2.2.1 (by decide) (by decide),
   (claim_c6 _).2.2.2.1 (by decide) (by decide) (by decide),
   (claim_c6 _).2.2.2.2 (by decide) (by decide) (by decide) (by decide)⟩

theorem mem_dictSet {m : List (String × CaseSt)} {k : String} {v : CaseSt}
    {p : String × CaseSt} (h : p ∈ dictSet m k v) :
    p = (k, v) ∨ (p ∈ m ∧ p.1 ≠ k) := by
  unfold dictSet at h
  split at h
  · rcases List.mem_map.mp h with ⟨q, hq, he⟩
    by_cases hk : q.1 = k
    · rw [if_pos hk] at he
      exact Or.inl he.symm
    · rw [if_neg hk] at he
      exact Or.inr ⟨he ▸ hq, he ▸ hk⟩
  · next hm =>
    rcases List.mem_append.mp h with h1 | h1
    · refine Or.inr ⟨h1, ?_⟩
      intro hk
      apply hm
      unfold dictMem
      rw [List.any_eq_true]
      exact ⟨p, h1, by simp [hk]⟩
    · simp at h1
      exact Or.inl (by rw [h1])

theorem nodupKeys_dictSet {m : List (String × CaseSt)} {k : String} {v : CaseSt}
    (h : (m.map (fun p => p.1)).Nodup) :
    ((dictSet m k v).map (fun p => p.1)).Nodup := by
  unfold dictSet
  split
  · have key_eq : ∀ (l : List (String × CaseSt)),
        (l.map (fun p => if p.1 = k then (k, v) else p)).map (fun p => p.1) =
          l.map (fun p => p.1) := by
      intro l
      induction l with
      | nil => rfl
      | cons q t ih =>
          simp only [List.map_cons]
          rw [ih]
          by_cases hq : q.1 = k
          · simp [hq]
          · simp [hq]
    rw [key_eq]
    exact h
  · next hm =>
    have hk : ∀ p ∈ m, p.1 ≠ k := by
      intro p hp hpk
      apply hm
      unfold dictMem
      rw [List.any_eq_true]
      exact ⟨p, hp, by simp [hpk]⟩
    rw [List.map_append]
    simp only [List.map_cons, List.map_nil]
    rw [List.nodup_append]
    refine ⟨h, by simp, ?_⟩
    intro a ha hb
    simp at hb
    rcases List.mem_map.mp ha with ⟨p, hp, he⟩
    exact hk p hp (by rw [he, hb])

theorem dictGet_some_mem {m : List (String × CaseSt)} {k : String} {v : CaseSt}
    (h : dictGet m k = some v) : (k, v) ∈ m := by
  unfold dictGet at h
  cases hf : m.find? (fun p => p.1 = k) with
  | none => rw [hf] at h; simp at h
  | some q =>
      rw [hf] at h
      simp at h
      have hqm := List.mem_of_find?_eq_some hf
      have hqk := List.find?_some hf
      simp at hqk
      have hq : q = (k, v) := by
        cases q
        simp at hqk h ⊢
        exact ⟨hqk, h⟩
      rw [← hq]
      exact hqm

theorem mem_dictGet {m : List (String × CaseSt)} {k : String} {v : CaseSt}
    (hnd : (m.map (fun p => p.1)).Nodup) (h : (k, v) ∈ m) :
    dictGet m k = some v := by
  induction m with
  | nil => simp at h
  | cons q t ih =>
      simp only [List.map_cons, List.nodup_cons] at hnd
      rcases List.mem_cons.mp h with h1 | h1
      · rw [← h1]
        simp [dictGet, List.find?_cons]
      · have hqk : q.1 ≠ k := by
          intro he
          apply hnd.1
          rw [he]
          exact List.mem_map.mpr ⟨(k, v), h1, rfl⟩
        have := ih hnd.2 h1
        unfold dictGet at this ⊢
        rw [List.find?_cons_of_neg _ (by simp [hqk])]
        exact this

theorem dictGet_dictSet_same {m : List (String × CaseSt)} {k : String} (v : CaseSt)
    (hnd : (m.map (fun p => p.1)).Nodup) :
    dictGet (dictSet m k v) k = some v := by
  apply mem_dictGet (nodupKeys_dictSet hnd)
  unfold dictSet
  split
  · next hm =>
    unfold dictMem at hm
    rw [List.any_eq_true] at hm
    rcases hm with ⟨p, hp, hpk⟩
    simp at hpk
    refine List.mem_map.mpr ⟨p, hp, ?_⟩
    rw [if_pos hpk]
  · exact List.mem_append.mpr (Or.inr (by simp))

theorem find?_map_keyset (t : List (String × CaseSt)) (k c : String) (v : CaseSt)
    (hne : c ≠ k) :
    (t.map (fun p => if p.1 = k then (k, v) else p)).find? (fun p => p.1 = c) =
      t.find? (fun p => p.1 = c) := by
  induction t with
  | nil => rfl
  | cons q t ih =>
      simp only [List.map_cons]
      by_cases hq : q.1 = k
      · rw [if_pos hq]
        rw [List.find?_cons_of_neg _ (by simp; exact fun he => hne he.symm)]
        rw [List.find?_cons_of_neg _ (by simp; rw [hq]; exact fun he => hne he.symm)]
        exact ih
      · rw [if_neg hq]
        by_cases hc : q.1 = c
        · rw [List.find?_cons_of_pos _ (by simp [hc]),
            List.find?_cons_of_pos _ (by simp [hc])]
        · rw [List.find?_cons_of_neg _ (by simp [hc]),
            List.find?_cons_of_neg _ (by simp [hc])]
          exact ih

theorem find?_append_keyne (t : List (String × CaseSt)) (k c : String) (v : CaseSt)
    (hne : c ≠ k) :
    (t ++ [(k, v)]).find? (fun p => p.1 = c) = t.find? (fun p => p.1 = c) := by
  induction t with
  | nil =>
      simp only [List.nil_append]
      rw [List.find?_cons_of_neg _ (by simp; exact fun he => hne he.symm)]
  | cons q t ih =>
      simp only [List.cons_append]
      by_cases hc : q.1 = c
      · rw [List.find?_cons_of_pos _ (by simp [hc]),
          List.find?_cons_of_pos _ (by simp [hc])]
      · rw [List.find?_cons_of_neg _ (by simp [hc]),
          List.find?_cons_of_neg _ (by simp [hc])]
        exact ih

theorem dictGet_dictSet_ne {m : List (String × CaseSt)} {k c : String} {v : CaseSt}
    (hne : c ≠ k) : dictGet (dictSet m k v) c = dictGet m c := by
  unfold dictSet dictGet
  split
  · rw [find?_map_keyset m k c v hne]
  · rw [find?_append_keyne m k c v hne]

theorem nodup_const_len {α : Type} {l : List α} {a : α}
    (hn : l.Nodup) (ha : ∀ x ∈ l, x = a) : l.length ≤ 1 := by
  cases l with
  | nil => simp
  | cons x t =>
      cases t with
      | nil => simp
      | cons y u =>
          exfalso
          have hx := ha x (by simp)
          have hy := ha y (by simp)
          rw [List.nodup_cons] at hn
          apply hn.1
          rw [hx, ← hy]
          exact List.mem_cons_self y u

theorem caseInv_count {s : SessionState} (hc : CaseInv s) (hk : KeysInv s) :
    countTesting s.case_status ≤ 1 := by
  unfold countTesting
  cases hcur : s.current_case_name with
  | none =>
      have : s.case_status.filter (fun p => p.2 = CaseSt.TESTING) = [] := by
        rw [List.filter_eq_nil_iff]
        intro p hp hpt
        simp at hpt
        have := (hc p hp hpt).1
        rw [hcur] at this
        exact Option.noConfusion this
      rw [this]
      simp
  | some n =>
      have hsub :
          (s.case_status.filter (fun p => p.2 = CaseSt.TESTING)).Sublist
            s.case_status := List.filter_sublist _
      have hkeys :
          ((s.case_status.filter (fun p => p.2 = CaseSt.TESTING)).map
            (fun p => p.1)).Nodup :=
        List.Nodup.sublist (hsub.map _) hk
      have hall : ∀ x ∈ (s.case_status.filter (fun p => p.2 = CaseSt.TESTING)).map
          (fun p => p.1), x = n := by
        intro x hx
        rcases List.mem_map.mp hx with ⟨p, hp, he⟩
        rcases List.mem_filter.mp hp with ⟨hpm, hpt⟩
        simp at hpt
        have := (hc p hpm hpt).1
        rw [hcur] at this
        have hn := Option.some_injective _ this
        rw [← he, ← hn]
      have hlen := nodup_const_len hkeys hall
      rw [List.length_map] at hlen
      exact hlen

theorem lastN_eq_self {α : Type} {l : List α} {n : Nat} (h : l.length ≤ n) :
    lastN n l = l := by
  simp [lastN, Nat.sub_eq_zero_of_le h]

theorem getLast?_append_two {α : Type} (L : List α) (x y : α) :
    (L ++ [x, y]).getLast? = some y := by
  simp

theorem floor_half : ⌊(1/2 : ℚ)⌋ = 0 := by
  rw [Int.floor_eq_iff]
  norm_num

theorem pyRoundHalfEven_half : pyRoundHalfEven (1/2 : ℚ) = 0 := by
  unfold pyRoundHalfEven
  rw [floor_half]
  norm_num

theorem claim_c5_cex :
    (markFinished { session_id := "s" } (1 + 1/2000) false {} (some 1)).stats.duration_seconds ≠
      max 0 ((1 + 1/2000 : ℚ) - 1) := by
  have hdur : (markFinished { session_id := "s" } (1 + 1/2000) false {}
      (some 1)).stats.duration_seconds = pyRound3 (max 0 ((1 + 1/2000 : ℚ) - 1)) := by
    simp only [markFinished, appendLog]
    norm_num [pyTruthyRat]
  rw [hdur]
  have h1 : max 0 ((1 + 1/2000 : ℚ) - 1) = 1/2000 := by norm_num
  rw [h1]
  have h2 : pyRound3 (1/2000 : ℚ) = 0 := by
    unfold pyRound3
    norm_num
    exact pyRoundHalfEven_half
  rw [h2]
  norm_num

/-- C5 (amended): `mark_finished` sets status to COMPLETED iff success (else
FAILED), records `finished_at`, stores `duration_seconds` as
`round(max(0, finished_at − started_at), 3)` (the source rounds the duration
to 3 decimals), copies the totals, clears `ui_lock`, and appends one summary
log entry; and the worker's success flag is exactly `returncode == 0`,
independent of the parsed totals. -/
theorem claim_c5 : ∀ (s : SessionState) (now : ℚ) (success : Bool)
    (totals : Totals) (t0 : ℚ),
    ((markFinished s now success totals (some t0)).status =
       if success then "COMPLETED" else "FAILED") ∧
    (markFinished s now success totals (some t0)).finished_at = some now ∧
    (t0 ≠ 0 → (markFinished s now success totals (some t0)).stats.duration_seconds =
       pyRound3 (max 0 (now - t0))) ∧
    (markFinished s now success totals (some t0)).stats.passed = totals.passed ∧
    (markFinished s now success totals (some t0)).stats.failed = totals.failed ∧
    (markFinished s now success totals (some t0)).stats.skipped = totals.skipped ∧
    (markFinished s now success totals (some t0)).ui_lock = false ∧
    (∃ msg : String, (markFinished s now success totals (some t0)).logs =
       lastN MAX_LOG_LINES (s.logs ++ [⟨now, "INFO", msg⟩])) ∧
    (∀ (lines : List (List Char)) (code : Int) (t0' : ℚ),
       (workerOps (.ok lines code) t0').getLast? =
         some (.opMarkFinished (code == 0) (runLinesAcc {} lines).1.totals
           (some t0'))) := by
  intro s now success totals t0
  refine ⟨rfl, rfl, ?_, rfl, rfl, rfl, rfl, ?_, ?_⟩
  · intro h
    simp only [markFinished, appendLog]
    simp [pyTruthyRat, h]
  · refine ⟨"Execution finished. Success=" ++ pyStrBool success ++ " (Passed=" ++
      toString totals.passed ++ ", Failed=" ++ toString totals.failed ++
      ", Skipped=" ++ toString totals.skipped ++ ").", ?_⟩
    have hup : pyUpper "INFO" = "INFO" := by decide
    simp only [markFinished]
    rw [appendLog_logs_eq, hup]
  · intro lines code t0'
    simp only [workerOps]
    exact getLast?_append_two _ _ _

theorem claim_c5_witness :
    ((1 : ℚ) ≠ 0) ∧
    (markFinished { session_id := "s" } 3 true { passed := 2 }
        (some 1)).stats.duration_seconds = pyRound3 (max 0 ((3 : ℚ) - 1)) ∧
    (markFinished { session_id := "s" } 3 true { passed := 2 } (some 1)).status =
      (if true then "COMPLETED" else "FAILED") :=
  ⟨by norm_num,
   (claim_c5 { session_id := "s" } 3 true { passed := 2 } 1).2.2.1 (by norm_num),
   (claim_c5 { session_id := "s" } 3 true { passed := 2 } 1).1⟩

theorem spawnFailSt_eq (msg : String) (t0 now : ℚ) (s : SessionState) :
    applyOps now s
      [.opAppendLog "ERROR" msg, .opMarkFinished false {} (some t0)] =
      markFinished (appendLog s now "ERROR" msg) now false {} (some t0) := rfl

theorem claim_c7_cnt (msg : String) (t0 now : ℚ) (s : SessionState)
    (hlen : s.logs.length ≤ 998) :
    errCount (markFinished (appendLog s now "ERROR" msg) now false {}
      (some t0)).logs = errCount s.logs + 1 := by
  have hup : pyUpper "ERROR" = "ERROR" := by decide
  have h1 : (appendLog s now "ERROR" msg).logs =
      s.logs ++ [⟨now, "ERROR", msg⟩] := by
    rw [appendLog_logs_eq, hup]
    apply lastN_eq_self
    simp [MAX_LOG_LINES]
    omega
  simp only [markFinished]
  rw [appendLog_logs_eq]
  have hlen2 : ((appendLog s now "ERROR" msg).logs ++
      [(⟨now, pyUpper "INFO",
        "Execution finished. Success=" ++ pyStrBool false ++ " (Passed=" ++
        toString (0 : Nat) ++ ", Failed=" ++ toString (0 : Nat) ++
        ", Skipped=" ++ toString (0 : Nat) ++ ")."⟩ : LogLine)]).length ≤
      MAX_LOG_LINES := by
    rw [h1]
    simp [MAX_LOG_LINES]
    omega
  rw [lastN_eq_self hlen2, h1]
  have hupI : pyUpper "INFO" = "INFO" := by decide
  simp [errCount, List.filter_append, hupI]

/-- C7: on any spawn failure the worker issues exactly one ERROR log entry
followed by `mark_finished(success=false, totals=all-zero)`; the session ends
FAILED with zero passed/failed/skipped, untouched case statuses and progress,
and (when the log is not near its cap) exactly one new ERROR entry. -/
theorem claim_c7 : ∀ (sp : SpawnResult) (t0 now : ℚ) (s : SessionState),
    isSpawnFailure sp = true →
    (∃ msg, workerOps sp t0 =
       [.opAppendLog "ERROR" msg, .opMarkFinished false {} (some t0)]) ∧
    (applyOps now s (workerOps sp t0)).status = "FAILED" ∧
    (applyOps now s (workerOps sp t0)).stats.passed = 0 ∧
    (applyOps now s (workerOps sp t0)).stats.failed = 0 ∧
    (applyOps now s (workerOps sp t0)).stats.skipped = 0 ∧
    (applyOps now s (workerOps sp t0)).ui_lock = false ∧
    (applyOps now s (workerOps sp t0)).case_status = s.case_status ∧
    (applyOps now s (workerOps sp t0)).progress = s.progress ∧
    (s.logs.length ≤ 998 →
       errCount (applyOps now s (workerOps sp t0)).logs = errCount s.logs + 1) := by
  intro sp t0 now s hsp
  cases sp with
  | ok lines code => simp [isSpawnFailure] at hsp
  | failureNotFound =>
      refine ⟨⟨_, rfl⟩, rfl, rfl, rfl, rfl, rfl, rfl, rfl, ?_⟩
      intro hlen
      exact claim_c7_cnt _ t0 now s hlen
  | failureOther m =>
      refine ⟨⟨_, rfl⟩, rfl, rfl, rfl, rfl, rfl, rfl, rfl, ?_⟩
      intro hlen
      exact claim_c7_cnt _ t0 now s hlen

theorem claim_c7_witness :
    (isSpawnFailure SpawnResult.failureNotFound = true) ∧
    ((initSession "sess" 0).logs.length ≤ 998) ∧
    (applyOps 0 (initSession "sess" 0) (workerOps .failureNotFound 0)).status =
      "FAILED" ∧
    errCount (applyOps 0 (initSession "sess" 0)
        (workerOps .failureNotFound 0)).logs =
      errCount (initSession "sess" 0).logs + 1 :=
  ⟨rfl, by decide,
   (claim_c7 .failureNotFound 0 0 (initSession "sess" 0) rfl).2.1,
   (claim_c7 .failureNotFound 0 0 (initSession "sess" 0) rfl).2.2.2.2.2.2.2.2
     (by decide)⟩

theorem claim_c2_cex :
    (" ".toList ≠ []) ∧
    ((lineOps {} " ".toList).2 = []) ∧
    (applyOps 0 (initSession "s" 0) (lineOps {} " ".toList).2).logs =
      (initSession "s" 0).logs := by
  refine ⟨by decide, by decide, ?_⟩
  rw [show (lineOps {} " ".toList).2 = [] from by decide]
  rfl

/-- C2 (amended): every line whose stripped content is non-empty is appended
(as its stripped text) to the session's log before any other store update;
whitespace-only lines are skipped without being logged. -/
theorem claim_c2 : ∀ (w : WLocal) (raw : List Char), (stripL raw).isEmpty = false →
    (lineOps w raw).2.head? =
      some (.opAppendLog "INFO" (String.mk (stripL raw))) := by
  intro w raw h
  unfold lineOps
  simp only [h, Bool.false_eq_true, if_false]
  split
  · simp
  · by_cases ht : pyTruthyStr w.current_case_name <;> simp [ht]
  · simp

theorem claim_c2_witness :
    ((stripL "hello".toList).isEmpty = false) ∧
    (lineOps {} "hello".toList).2.head? =
      some (.opAppendLog "INFO" (String.mk (stripL "hello".toList))) :=
  ⟨by decide, claim_c2 {} "hello".toList (by decide)⟩

theorem claim_c1_cex :
    classify (stripL "PASS".toList) = .result CaseSt.PASS ∧
    ({} : WLocal).current_case_name = none ∧
    ({} : WLocal).totals.passed = 0 ∧
    (lineOps {} "PASS".toList).1.totals.passed = 1 := by
  decide

/-- C1 (amended): a Result-classified line seen while no current case is
tracked produces no case transition and no `current_step` advance, but the
aggregate counter for the detected outcome is still incremented, because the
`totals` increments happen at classification time, outside the
`result_detected and current_case_name` gate. -/
theorem claim_c1 : ∀ (w : WLocal) (raw : List Char) (o : CaseSt),
    w.current_case_name = none → (stripL raw).isEmpty = false →
    classify (stripL raw) = .result o →
    (lineOps w raw).1.totals = bumpTotals w.totals o ∧
    (lineOps w raw).1.current_step = w.current_step ∧
    (lineOps w raw).1.current_case_name = none ∧
    (∀ (now : ℚ) (s : SessionState),
       (applyOps now s (lineOps w raw).2).case_status = s.case_status) := by
  intro w raw o hnone hne hcl
  unfold lineOps
  simp only [hne, Bool.false_eq_true, if_false, hcl, hnone, pyTruthyStr,
    Bool.false_eq_true, if_false]
  refine ⟨trivial, trivial, trivial, ?_⟩
  intro now s
  simp [applyOps, applyOp, appendLog, setProgress]

theorem claim_c1_witness :
    (({} : WLocal).current_case_name = none) ∧
    ((stripL "PASS".toList).isEmpty = false) ∧
    (classify (stripL "PASS".toList) = .result CaseSt.PASS) ∧
    (lineOps {} "PASS".toList).1.totals = bumpTotals ({} : WLocal).totals CaseSt.PASS :=
  ⟨rfl, by decide, by decide,
   (claim_c1 {} "PASS".toList CaseSt.PASS rfl (by decide) (by decide)).1⟩

theorem demoteStep_prop {s : SessionState} (name : Option String)
    (hc : CaseInv s) (hk : KeysInv s) :
    (∀ p ∈ demoteStep s name, p.2 = CaseSt.TESTING → name = some p.1 ∧ p.1 ≠ "") ∧
    ((demoteStep s name).map (fun p => p.1)).Nodup := by
  unfold demoteStep
  constructor
  · intro p hp hpt
    split at hp
    · next h1 =>
      split at hp
      · rcases mem_dictSet hp with he | ⟨hpm, hpne⟩
        · rw [he] at hpt
          exact absurd hpt (by simp)
        · have h3 := hc p hpm hpt
          exfalso
          apply hpne
          rw [h3.1]
          rfl
      · next h2 =>
        have h3 := hc p hp hpt
        exfalso
        apply h2
        have hprev : s.current_case_name.getD "" = p.1 := by
          rw [h3.1]
          rfl
        constructor
        · unfold dictMem
          rw [List.any_eq_true]
          refine ⟨p, hp, ?_⟩
          simp [hprev]
        · rw [hprev]
          have hm : (p.1, p.2) ∈ s.case_status := hp
          have := mem_dictGet hk hm
          rw [this, hpt]
    · next h1 =>
      have h3 := hc p hp hpt
      have htr : pyTruthyStr s.current_case_name = true := by
        rw [h3.1]
        simp [pyTruthyStr]
        exact h3.2
      have hcur : s.current_case_name = name := by
        by_contra hne
        exact h1 ⟨htr, hne⟩
      rw [← hcur]
      exact ⟨h3.1, h3.2⟩
  · split
    · split
      · exact nodupKeys_dictSet hk
      · exact hk
    · exact hk

theorem setCurrentCase_inv (s : SessionState) (now : ℚ) (name doc : Option String)
    (hc : CaseInv s) (hk : KeysInv s) :
    CaseInv (setCurrentCase s now name doc) ∧
    KeysInv (setCurrentCase s now name doc) := by
  have h0 := demoteStep_prop name hc hk
  have hcs : (setCurrentCase s now name doc).case_status =
      (if pyTruthyStr name then
        dictSet (if ¬ dictMem (demoteStep s name) (name.getD "") then
                   dictSet (demoteStep s name) (name.getD "") CaseSt.SCHEDULE
                 else demoteStep s name)
          (name.getD "") CaseSt.TESTING
      else demoteStep s name) := rfl
  have hcn : (setCurrentCase s now name doc).current_case_name = name := rfl
  constructor
  · intro p hp hpt
    rw [hcn]
    rw [hcs] at hp
    by_cases hn : pyTruthyStr name
    · rw [if_pos hn] at hp
      have hname : name = some (name.getD "") ∧ name.getD "" ≠ "" := by
        cases name with
        | none => simp [pyTruthyStr] at hn
        | some x =>
            simp [pyTruthyStr] at hn
            exact ⟨rfl, by simpa using hn⟩
      rcases mem_dictSet hp with he | ⟨hp1, hpne⟩
      · rw [he]
        exact ⟨hname.1, hname.2⟩
      · have hfin : False := by
          have hmem : p ∈ demoteStep s name ∧ p.2 = CaseSt.TESTING := by
            revert hp1
            split
            · intro hp1
              rcases mem_dictSet hp1 with he2 | ⟨hp2, _⟩
              · rw [he2] at hpt
                exact absurd hpt (by simp)
              · exact ⟨hp2, hpt⟩
            · intro hp1
              exact ⟨hp1, hpt⟩
          have h3 := h0.1 p hmem.1 hmem.2
          apply hpne
          have h4 := h3.1
          rw [hname.1] at h4
          exact (Option.some_injective _ h4).symm
        exact hfin.elim
    · rw [if_neg hn] at hp
      exact h0.1 p hp hpt
  · unfold KeysInv
    rw [hcs]
    by_cases hn : pyTruthyStr name
    · rw [if_pos hn]
      apply nodupKeys_dictSet
      split
      · exact nodupKeys_dictSet h0.2
      · exact h0.2
    · rw [if_neg hn]
      exact h0.2

theorem setCaseResult_inv (s : SessionState) (now : ℚ) (name : String) (o : CaseSt)
    (hc : CaseInv s) (hk : KeysInv s) :
    CaseInv (setCaseResult s now name o) ∧ KeysInv (setCaseResult s now name o) := by
  by_cases ho : o = CaseSt.PASS ∨ o = CaseSt.FAIL ∨ o = CaseSt.SKIP
  · have hcs : (setCaseResult s now name o).case_status =
        dictSet (if ¬ dictMem s.case_status name then
                   dictSet s.case_status name CaseSt.NOTRUN
                 else s.case_status) name o := by
      unfold setCaseResult
      rw [if_pos ho]
    have hcn : (setCaseResult s now name o).current_case_name =
        (if s.current_case_name = some name then none else s.current_case_name) := by
      unfold setCaseResult
      rw [if_pos ho]
    have hne : o ≠ CaseSt.TESTING := by
      rcases ho with h | h | h <;> subst h <;> simp
    constructor
    · intro p hp hpt
      rw [hcn]
      rw [hcs] at hp
      rcases mem_dictSet hp with he | ⟨hp1, hpne⟩
      · rw [he] at hpt
        exact absurd hpt hne
      · have hp2 : p ∈ s.case_status := by
          revert hp1
          split
          · intro hp1
            rcases mem_dictSet hp1 with he2 | ⟨hp2, _⟩
            · exact absurd (by rw [he2]) hpne
            · exact hp2
          · intro hp1
            exact hp1
        have h3 := hc p hp2 hpt
        have hnecur : s.current_case_name ≠ some name := by
          rw [h3.1]
          intro heq
          exact hpne (Option.some_injective _ heq)
        rw [if_neg hnecur]
        exact h3
    · unfold KeysInv
      rw [hcs]
      apply nodupKeys_dictSet
      split
      · exact nodupKeys_dictSet hk
      · exact hk
  · have hid : setCaseResult s now name o = s := by
      unfold setCaseResult
      rw [if_neg ho]
    rw [hid]
    exact ⟨hc, hk⟩

theorem foldSched (cases : List String) :
    ∀ acc : List (String × CaseSt), (∀ p ∈ acc, p.2 = CaseSt.SCHEDULE) →
      ∀ p ∈ cases.foldl
          (fun m c => if c ≠ "" then dictSet m c CaseSt.SCHEDULE else m) acc,
        p.2 = CaseSt.SCHEDULE := by
  induction cases with
  | nil => intro acc ha p hp; exact ha p hp
  | cons c rest ih =>
      intro acc ha p hp
      refine ih _ ?_ p hp
      intro q
      show q ∈ (if c ≠ "" then dictSet acc c CaseSt.SCHEDULE else acc) →
        q.2 = CaseSt.SCHEDULE
      split
      · intro hq
        rcases mem_dictSet hq with he | ⟨hq2, _⟩
        · rw [he]
        · exact ha q hq2
      · intro hq
        exact ha q hq

theorem foldNodupKeys (cases : List String) :
    ∀ acc : List (String × CaseSt), (acc.map (fun p => p.1)).Nodup →
      ((cases.foldl
          (fun m c => if c ≠ "" then dictSet m c CaseSt.SCHEDULE else m) acc).map
        (fun p => p.1)).Nodup := by
  induction cases with
  | nil => intro acc h; exact h
  | cons c rest ih =>
      intro acc h
      refine ih _ ?_
      show ((if c ≠ "" then dictSet acc c CaseSt.SCHEDULE else acc).map
        (fun p => p.1)).Nodup
      split
      · exact nodupKeys_dictSet h
      · exact h

theorem initializeCases_inv (s : SessionState) (now : ℚ) (cases : List String)
    (_hc : CaseInv s) (_hk : KeysInv s) :
    CaseInv (initializeCases s now cases) ∧ KeysInv (initializeCases s now cases) := by
  have hcs : (initializeCases s now cases).case_status =
      cases.foldl (fun m c => if c ≠ "" then dictSet m c CaseSt.SCHEDULE else m) [] := by
    unfold initializeCases
    split <;> rfl
  constructor
  · intro p hp hpt
    rw [hcs] at hp
    have hs := foldSched cases [] (by intro q hq; simp at hq) p hp
    rw [hs] at hpt
    exact absurd hpt (by simp)
  · unfold KeysInv
    rw [hcs]
    exact foldNodupKeys cases [] (by simp)

theorem applyCaseOps_inv (ops : List CaseOp) :
    ∀ (now : ℚ) (s : SessionState), CaseInv s → KeysInv s →
      CaseInv (applyCaseOps now s ops) ∧ KeysInv (applyCaseOps now s ops) := by
  induction ops with
  | nil => intro now s hc hk; exact ⟨hc, hk⟩
  | cons op rest ih =>
      intro now s hc hk
      have h1 : CaseInv (applyCaseOp now s op) ∧ KeysInv (applyCaseOp now s op) := by
        cases op with
        | cur n d => exact setCurrentCase_inv s now n d hc hk
        | res n o => exact setCaseResult_inv s now n o hc hk
        | initcases cs => exact initializeCases_inv s now cs hc hk
      exact ih now _ h1.1 h1.2

/-- C8: starting from any coherent state (every TESTING case is the tracked
current case, dict keys unique), any sequence of case-machine operations
leaves at most one case in TESTING; and `set_current_case(name)` demotes a
different case currently holding TESTING back to SCHEDULE. -/
theorem claim_c8 :
    (∀ (ops : List CaseOp) (now : ℚ) (s : SessionState), CaseInv s → KeysInv s →
       countTesting (applyCaseOps now s ops).case_status ≤ 1) ∧
    (∀ (s : SessionState) (now : ℚ) (name doc : Option String) (c : String),
       CaseInv s → KeysInv s →
       dictGet s.case_status c = some CaseSt.TESTING → name ≠ some c →
       dictGet (setCurrentCase s now name doc).case_status c =
         some CaseSt.SCHEDULE) := by
  constructor
  · intro ops now s hc hk
    have h := applyCaseOps_inv ops now s hc hk
    exact caseInv_count h.1 h.2
  · intro s now name doc c hc hk hget hne
    have hmem : (c, CaseSt.TESTING) ∈ s.case_status := dictGet_some_mem hget
    have h3 : s.current_case_name = some c ∧ c ≠ "" :=
      hc (c, CaseSt.TESTING) hmem rfl
    have hds : demoteStep s name = dictSet s.case_status c CaseSt.SCHEDULE := by
      unfold demoteStep
      rw [h3.1]
      simp only [Option.getD_some]
      have hcond1 : pyTruthyStr (some c) = true ∧ (some c : Option String) ≠ name := by
        constructor
        · simp [pyTruthyStr]
          exact h3.2
        · exact fun he => hne he.symm
      rw [if_pos hcond1]
      have hcond2 : dictMem s.case_status c = true ∧
          dictGet s.case_status c = some CaseSt.TESTING := by
        constructor
        · unfold dictMem
          rw [List.any_eq_true]
          exact ⟨(c, CaseSt.TESTING), hmem, by simp⟩
        · exact hget
      rw [if_pos hcond2]
    have hcs : (setCurrentCase s now name doc).case_status =
        (if pyTruthyStr name then
          dictSet (if ¬ dictMem (demoteStep s name) (name.getD "") then
                     dictSet (demoteStep s name) (name.getD "") CaseSt.SCHEDULE
                   else demoteStep s name)
            (name.getD "") CaseSt.TESTING
        else demoteStep s name) := rfl
    rw [hcs]
    have hgot : dictGet (demoteStep s name) c = some CaseSt.SCHEDULE := by
      rw [hds]
      exact dictGet_dictSet_same _ hk
    by_cases hn : pyTruthyStr name
    · rw [if_pos hn]
      have hcn : c ≠ name.getD "" := by
        cases name with
        | none => simp [pyTruthyStr] at hn
        | some x =>
            intro he
            apply hne
            simp only [Option.getD_some] at he
            rw [he]
      rw [dictGet_dictSet_ne hcn]
      split
      · rw [dictGet_dictSet_ne hcn]
        exact hgot
      · exact hgot
    · rw [if_neg hn]
      exact hgot

theorem claim_c8_witness :
    CaseInv (initSession "w8" 0) ∧ KeysInv (initSession "w8" 0) ∧
    countTesting (applyCaseOps 0 (initSession "w8" 0)
      [.cur (some "A") none, .cur (some "B") none]).case_status ≤ 1 ∧
    dictGet (setCurrentCase c8WitSession 0 (some "B") none).case_status "A" =
      some CaseSt.SCHEDULE := by
  have hc1 : CaseInv (initSession "w8" 0) := by
    intro p hp
    simp [initSession, appendLog] at hp
  have hk1 : KeysInv (initSession "w8" 0) := by
    simp [KeysInv, initSession, appendLog]
  have hc2 : CaseInv c8WitSession := by
    intro p hp hpt
    simp [c8WitSession] at hp
    rw [hp]
    exact ⟨rfl, by simp [c8WitSession]⟩
  have hk2 : KeysInv c8WitSession := by
    simp [KeysInv, c8WitSession]
  refine ⟨hc1, hk1, ?_, ?_⟩
  · exact claim_c8.1 [.cur (some "A") none, .cur (some "B") none] 0 _ hc1 hk1
  · exact claim_c8.2 c8WitSession 0 (some "B") none "A" hc2 hk2
      (by simp [dictGet, c8WitSession]) (by simp)

theorem markFinished_status (s : SessionState) (now : ℚ) (suc : Bool)
    (t : Totals) (t0 : Option ℚ) :
    (markFinished s now suc t t0).status =
      (if suc then "COMPLETED" else "FAILED") := rfl

theorem markFinished_ui_lock (s : SessionState) (now : ℚ) (suc : Bool)
    (t : Totals) (t0 : Option ℚ) :
    (markFinished s now suc t t0).ui_lock = false := rfl

theorem passive_keepsSL {op : StoreOp} (h : isPassive op = true) (now : ℚ)
    (s : SessionState) :
    (applyOp now s op).status = s.status ∧ (applyOp now s op).ui_lock = s.ui_lock := by
  cases op with
  | opSetArtifacts a => exact ⟨rfl, rfl⟩
  | opAppendLog lv m => exact ⟨rfl, rfl⟩
  | opSetProgress cs ts => exact ⟨rfl, rfl⟩
  | opSetCurrentCase n d => exact ⟨rfl, rfl⟩
  | opSetCaseResult n o =>
      constructor
      · show (setCaseResult s now n o).status = s.status
        unfold setCaseResult
        split <;> rfl
      · show (setCaseResult s now n o).ui_lock = s.ui_lock
        unfold setCaseResult
        split <;> rfl
  | opSetUiLock b => simp [isPassive] at h
  | opMarkStarted => simp [isPassive] at h
  | opSetStatus st => simp [isPassive] at h
  | opMarkFinished b t t0 => simp [isPassive] at h

theorem keepsQ_of_passive {op : StoreOp} (h : isPassive op = true) : KeepsQ op := by
  intro now s hs
  have hp := passive_keepsSL h now s
  exact ⟨by rw [hp.1]; exact hs.1, by rw [hp.2]; exact hs.2⟩

theorem keepsQ_setStatusRunning : KeepsQ (.opSetStatus "RUNNING") := by
  intro now s hs
  exact ⟨rfl, hs.2⟩

theorem lineOps_passive (w : WLocal) (raw : List Char) :
    ∀ op ∈ (lineOps w raw).2, isPassive op = true := by
  unfold lineOps
  by_cases hb : (stripL raw).isEmpty
  · simp [hb]
  · simp only [hb, Bool.false_eq_true, if_false]
    split
    · intro op hop
      simp only [List.mem_cons, List.not_mem_nil, or_false] at hop
      rcases hop with h | h | h <;> subst h <;> rfl
    · by_cases ht : pyTruthyStr w.current_case_name
      · simp only [ht, if_true]
        intro op hop
        simp only [List.mem_cons, List.not_mem_nil, or_false] at hop
        rcases hop with h | h | h <;> subst h <;> rfl
      · simp only [ht, Bool.false_eq_true, if_false]
        intro op hop
        simp only [List.mem_cons, List.not_mem_nil, or_false] at hop
        rcases hop with h | h <;> subst h <;> rfl
    · intro op hop
      simp only [List.mem_cons, List.not_mem_nil, or_false] at hop
      rcases hop with h | h <;> subst h <;> rfl

theorem runLinesAcc_passive (lines : List (List Char)) :
    ∀ w : WLocal, ∀ op ∈ (runLinesAcc w lines).2, isPassive op = true := by
  induction lines with
  | nil => intro w op hop; simp [runLinesAcc] at hop
  | cons raw rest ih =>
      intro w op hop
      simp only [runLinesAcc, List.mem_append] at hop
      rcases hop with h | h
      · exact lineOps_passive w raw op h
      · exact ih _ op h

theorem workerMid_keepsQ (sp : SpawnResult) : ∀ op ∈ workerMid sp, KeepsQ op := by
  cases sp with
  | failureNotFound =>
      intro op hop
      simp only [workerMid, List.mem_cons, List.not_mem_nil, or_false] at hop
      subst hop
      exact keepsQ_of_passive rfl
  | failureOther m =>
      intro op hop
      simp only [workerMid, List.mem_cons, List.not_mem_nil, or_false] at hop
      subst hop
      exact keepsQ_of_passive rfl
  | ok lines code =>
      intro op hop
      simp only [workerMid, List.cons_append, List.mem_cons, List.mem_append,
        List.not_mem_nil, or_false, false_or] at hop
      rcases hop with h | h | h | h
      · subst h; exact keepsQ_setStatusRunning
      · subst h; exact keepsQ_of_passive rfl
      · exact keepsQ_of_passive (runLinesAcc_passive lines {} op h)
      · subst h; exact keepsQ_of_passive rfl

theorem workerOps_decomp (sp : SpawnResult) (t0 : ℚ) :
    workerOps sp t0 = workerMid sp ++ [finOp sp t0] := by
  cases sp <;> simp [workerOps, workerMid, finOp]

theorem foldQ (pre : List StoreOp) :
    ∀ (s : SessionState) (now : ℚ), (∀ op ∈ pre, KeepsQ op) → RunLocked s →
      RunLocked (applyOps now s pre) := by
  induction pre with
  | nil => intro s now _ hs; exact hs
  | cons op rest ih =>
      intro s now hall hs
      exact ih _ now (fun o ho => hall o (List.mem_cons_of_mem _ ho))
        (hall op (List.mem_cons_self _ _) now s hs)

theorem splitConcat {α : Type} (pre suf mid : List α) (x : α)
    (h : pre ++ suf = mid ++ [x]) :
    (∃ s2, pre ++ s2 = mid ∧ suf = s2 ++ [x]) ∨ (pre = mid ++ [x] ∧ suf = []) := by
  rcases List.eq_nil_or_concat suf with hs | ⟨s2, y, hs⟩
  · subst hs
    right
    constructor
    · simpa using h
    · rfl
  · subst hs
    left
    rw [List.concat_eq_append, ← List.append_assoc] at h
    have hinj := List.append_inj' h rfl
    have hyx : y = x := by
      have := hinj.2
      simpa using this
    exact ⟨s2, hinj.1, by rw [hyx, List.concat_eq_append]⟩

theorem finOp_shape (sp : SpawnResult) (t0 : ℚ) :
    ∃ (b : Bool) (tt : Totals),
      finOp sp t0 = .opMarkFinished b tt (some t0) := by
  cases sp with
  | failureNotFound => exact ⟨false, {}, rfl⟩
  | failureOther m => exact ⟨false, {}, rfl⟩
  | ok lines code => exact ⟨code == 0, (runLinesAcc {} lines).1.totals, rfl⟩

/-- C9 (amended): at every intermediate point of the start-plus-worker
lifecycle, `ui_lock` is true whenever the status is RUNNING and false
whenever the status is terminal (COMPLETED or FAILED); while the status is
still PENDING during start(), the lock may transiently be true. -/
theorem claim_c9 : ∀ (art : List (String × String)) (cmdMsg outMsg : String)
    (sp : SpawnResult) (t0 now : ℚ) (sid : String) (t : ℚ)
    (pre suf : List StoreOp),
    pre ++ suf = startOps art cmdMsg outMsg sp t0 →
    ((applyOps now (initSession sid t) pre).status = "RUNNING" →
       (applyOps now (initSession sid t) pre).ui_lock = true) ∧
    (((applyOps now (initSession sid t) pre).status = "COMPLETED" ∨
      (applyOps now (initSession sid t) pre).status = "FAILED") →
       (applyOps now (initSession sid t) pre).ui_lock = false) := by
  intro art cmdMsg outMsg sp t0 now sid t pre suf heq
  rw [show startOps art cmdMsg outMsg sp t0 =
      .opSetUiLock true :: .opMarkStarted ::
      (([.opSetArtifacts art, .opAppendLog "INFO" cmdMsg,
         .opAppendLog "INFO" outMsg] ++ workerMid sp) ++ [finOp sp t0])
    from by simp [startOps, workerOps_decomp]] at heq
  cases pre with
  | nil =>
      have hst : (applyOps now (initSession sid t) []).status = "PENDING" := rfl
      constructor
      · intro h
        rw [hst] at h
        exact absurd h (by decide)
      · intro h
        rw [hst] at h
        rcases h with h | h <;> exact absurd h (by decide)
  | cons op1 pre1 =>
      rw [List.cons_append] at heq
      injection heq with h1 heq2
      subst h1
      cases pre1 with
      | nil =>
          have hst : (applyOps now (initSession sid t)
              [.opSetUiLock true]).status = "PENDING" := rfl
          have hlk : (applyOps now (initSession sid t)
              [.opSetUiLock true]).ui_lock = true := rfl
          constructor
          · intro _
            exact hlk
          · intro h
            rw [hst] at h
            rcases h with h | h <;> exact absurd h (by decide)
      | cons op2 pre2 =>
          rw [List.cons_append] at heq2
          injection heq2 with h2 heq3
          subst h2
          have hq2 : RunLocked (applyOps now (initSession sid t)
              [.opSetUiLock true, .opMarkStarted]) := ⟨rfl, rfl⟩
          rcases splitConcat pre2 suf _ _ heq3 with ⟨s2, hpre, _⟩ | ⟨hpre, _⟩
          · have hmidQ : ∀ op ∈ ([.opSetArtifacts art,
                .opAppendLog "INFO" cmdMsg,
                .opAppendLog "INFO" outMsg] ++ workerMid sp), KeepsQ op := by
              intro op hop
              rcases List.mem_append.mp hop with h | h
              · simp only [List.mem_cons, List.not_mem_nil, or_false] at h
                rcases h with h | h | h <;> subst h <;> exact keepsQ_of_passive rfl
              · exact workerMid_keepsQ sp op h
            have hpreQ : ∀ op ∈ pre2, KeepsQ op := by
              intro op hop
              apply hmidQ
              rw [← hpre]
              exact List.mem_append.mpr (Or.inl hop)
            have hQ : RunLocked (applyOps now (applyOps now (initSession sid t)
                [.opSetUiLock true, .opMarkStarted]) pre2) :=
              foldQ pre2 _ now hpreQ hq2
            have hsteps : applyOps now (initSession sid t)
                (.opSetUiLock true :: .opMarkStarted :: pre2) =
                applyOps now (applyOps now (initSession sid t)
                  [.opSetUiLock true, .opMarkStarted]) pre2 := rfl
            rw [hsteps]
            constructor
            · intro _
              exact hQ.2
            · intro h
              rcases h with h | h <;> (rw [hQ.1] at h; exact absurd h (by decide))
          · subst hpre
            obtain ⟨b, tt, hfin⟩ := finOp_shape sp t0
            have hsteps : applyOps now (initSession sid t)
                (.opSetUiLock true :: .opMarkStarted ::
                  (([.opSetArtifacts art, .opAppendLog "INFO" cmdMsg,
                     .opAppendLog "INFO" outMsg] ++ workerMid sp) ++
                   [finOp sp t0])) =
                applyOp now (applyOps now (applyOps now (initSession sid t)
                    [.opSetUiLock true, .opMarkStarted])
                  ([.opSetArtifacts art, .opAppendLog "INFO" cmdMsg,
                    .opAppendLog "INFO" outMsg] ++ workerMid sp))
                  (finOp sp t0) := by
              simp [applyOps, List.foldl_append]
            rw [hsteps, hfin]
            constructor
            · intro h
              rw [show (applyOp now _ (StoreOp.opMarkFinished b tt (some t0))).status
                  = (if b then "COMPLETED" else "FAILED") from rfl] at h
              cases b <;> exact absurd h (by decide)
            · intro _
              exact rfl

theorem claim_c9_cex :
    ((applyOps 0 (initSession "s" 0) [.opSetUiLock true]).status = "PENDING") ∧
    ((applyOps 0 (initSession "s" 0) [.opSetUiLock true]).ui_lock = true) ∧
    (∃ suf, [StoreOp.opSetUiLock true] ++ suf =
      startOps [] "" "" .failureNotFound 0) := by
  refine ⟨rfl, rfl,
    ⟨[.opMarkStarted, .opSetArtifacts [], .opAppendLog "INFO" "",
      .opAppendLog "INFO" "",
      .opAppendLog "ERROR" "Robot not found. Ensure Robot Framework is installed.",
      .opMarkFinished false {} (some 0)], ?_⟩⟩
  rfl

theorem claim_c9_witness :
    (applyOps 0 (initSession "s" 0)
      [.opSetUiLock true, .opMarkStarted]).ui_lock = true :=
  (claim_c9 [] "" "" .failureNotFound 0 0 "s" 0
    [.opSetUiLock true, .opMarkStarted]
    [.opSetArtifacts [], .opAppendLog "INFO" "", .opAppendLog "INFO" "",
     .opAppendLog "ERROR" "Robot not found. Ensure Robot Framework is installed.",
     .opMarkFinished false {} (some 0)] rfl).1 rfl

end ExecSession
